import Mathlib

/-! Verification of the PNML parser and consistency checker (`pnml_parser.py`).

The Python source is shallowly embedded: the dataclasses `Place`, `Transition`,
`Arc` and the `PetriNet` container become Lean structures (Python dicts become
insertion-ordered association lists), the imperative loops of
`check_consistency` and `parse_pnml` become structural recursions threading the
mutated state, and Python exceptions (`KeyError`, `ValueError` from `int()`,
duplicate-id `ValueError`, `AttributeError` on `None.strip()`) become
`Except String` errors. -/

namespace PNML

/-- The `Place` dataclass: identifier, optional display name, initial marking
(default 0; Python `int`, so `Int`). -/
structure Place where
  id : String
  name : Option String := none
  initial_marking : Int := 0
deriving DecidableEq, Repr

/-- The `Transition` dataclass: identifier and optional display name. -/
structure Transition where
  id : String
  name : Option String := none
deriving DecidableEq, Repr

/-- The `Arc` dataclass: identifier plus free-text source and target ids. -/
structure Arc where
  id : String
  source : String
  target : String
deriving DecidableEq, Repr

/-- The `PetriNet` container: the Python dicts `places` and `transitions` are modelled as
insertion-ordered association lists (CPython dicts preserve insertion order), the
`arcs` list as a list. -/
structure PetriNet where
  places : List (String × Place)
  transitions : List (String × Transition)
  arcs : List Arc
deriving DecidableEq, Repr

/-- Constructor `PetriNet.__init__`: all three collections start empty. -/
def PetriNet.empty : PetriNet := ⟨[], [], []⟩

/-- Python `key in dict` on the association-list model. -/
def containsKey {α : Type} (m : List (String × α)) (k : String) : Bool :=
  m.any (fun kv => kv.1 == k)

/-- Message of the duplicate-place `ValueError`. -/
def dupPlaceMsg (p : Place) : String := s!"Duplicate place id: {p.id}"

/-- Message of the duplicate-transition `ValueError`. -/
def dupTransMsg (t : Transition) : String := s!"Duplicate transition id: {t.id}"

/-- Method `PetriNet.add_place`: raises `ValueError` if the id is already a key of
`places`, otherwise inserts (dict insertion appends a fresh key). -/
def PetriNet.add_place (net : PetriNet) (p : Place) : Except String PetriNet :=
  if containsKey net.places p.id then Except.error (dupPlaceMsg p)
  else Except.ok { net with places := net.places ++ [(p.id, p)] }

/-- Method `PetriNet.add_transition`: raises `ValueError` on a duplicate transition id. -/
def PetriNet.add_transition (net : PetriNet) (t : Transition) : Except String PetriNet :=
  if containsKey net.transitions t.id then Except.error (dupTransMsg t)
  else Except.ok { net with transitions := net.transitions ++ [(t.id, t)] }

/-- Method `PetriNet.add_arc`: plain append, never fails. -/
def PetriNet.add_arc (net : PetriNet) (a : Arc) : PetriNet :=
  { net with arcs := net.arcs ++ [a] }

/-- Error message for an arc whose source id is in neither mapping. -/
def srcErrMsg (a : Arc) : String := s!"Arc {a.id} has unknown source {a.source}"

/-- Error message for an arc whose target id is in neither mapping. -/
def tgtErrMsg (a : Arc) : String := s!"Arc {a.id} has unknown target {a.target}"

/-- Warning message for a place whose marking is outside {0, 1}. -/
def markWarnMsg (p : Place) : String :=
  s!"Place {p.id} has marking {p.initial_marking} (not 0/1)"

/-- Method `PetriNet.check_consistency`: first loop appends up to two errors per arc
(unknown source, unknown target), second loop appends one warning per place
whose marking is not 0 or 1. Transcribed as two left folds that append to the
accumulator lists exactly as the Python loops do. -/
def PetriNet.check_consistency (net : PetriNet) : List String × List String :=
  let errors := net.arcs.foldl (fun errs a =>
    let errs1 := if !containsKey net.places a.source && !containsKey net.transitions a.source
      then errs ++ [srcErrMsg a] else errs
    if !containsKey net.places a.target && !containsKey net.transitions a.target
      then errs1 ++ [tgtErrMsg a] else errs1) []
  let warnings := net.places.foldl (fun ws kp =>
    if !(kp.2.initial_marking == 0 || kp.2.initial_marking == 1)
      then ws ++ [markWarnMsg kp.2] else ws) []
  (errors, warnings)

/-- The 0-, 1- or 2-element error list the checker's first loop appends for a
single arc. -/
def arcErrors (net : PetriNet) (a : Arc) : List String :=
  (if !containsKey net.places a.source && !containsKey net.transitions a.source
    then [srcErrMsg a] else [])
  ++ (if !containsKey net.places a.target && !containsKey net.transitions a.target
    then [tgtErrMsg a] else [])

/-- The 0- or 1-element warning list the checker's second loop appends for a
single place. -/
def placeWarning (p : Place) : List String :=
  if !(p.initial_marking == 0 || p.initial_marking == 1)
    then [markWarnMsg p] else []

/-- Function `strip_ns`: if `'}'` occurs in the tag, return everything after the first
`'}'` (Python `tag.split('}', 1)[1]`), else the tag unchanged. -/
def strip_ns (tag : String) : String :=
  if '}' ∈ tag.toList then String.mk ((tag.toList.dropWhile (fun c => c != '}')).tail)
  else tag

/-- Python `str.strip()`: drop whitespace from both ends. -/
def pyStrip (s : String) : String :=
  String.mk (((s.toList.dropWhile Char.isWhitespace).reverse.dropWhile Char.isWhitespace).reverse)

/-- Decimal value of a digit list (most significant first). -/
def digitsVal (ds : List Char) : Nat :=
  ds.foldl (fun acc c => acc * 10 + (c.toNat - 48)) 0

/-- Python `int(s)` on an already-stripped string: an optional sign followed by
at least one decimal digit, else `ValueError`. -/
def pyInt (s : String) : Except String Int :=
  match s.toList with
  | '-' :: ds =>
    if !ds.isEmpty && ds.all Char.isDigit then Except.ok (-(digitsVal ds : Int))
    else Except.error ("invalid literal for int() with base 10: " ++ s)
  | '+' :: ds =>
    if !ds.isEmpty && ds.all Char.isDigit then Except.ok (digitsVal ds : Int)
    else Except.error ("invalid literal for int() with base 10: " ++ s)
  | ds =>
    if !ds.isEmpty && ds.all Char.isDigit then Except.ok (digitsVal ds : Int)
    else Except.error ("invalid literal for int() with base 10: " ++ s)

/-- Python `needle in hay` substring test on character lists. -/
def containsSub (needle : List Char) : List Char → Bool
  | [] => needle.isEmpty
  | c :: rest => needle.isPrefixOf (c :: rest) || containsSub needle rest

/-- An `xml.etree.ElementTree` element: tag, attribute dict, text and children. -/
inductive XElem where
  | mk (tag : String) (attrib : List (String × String)) (text : Option String)
      (children : List XElem)

/-- Tag of an element. -/
def XElem.tag : XElem → String
  | .mk t _ _ _ => t

/-- Attribute dictionary of an element (association list). -/
def XElem.attrib : XElem → List (String × String)
  | .mk _ a _ _ => a

/-- Text content of an element (`None` when absent). -/
def XElem.text : XElem → Option String
  | .mk _ _ x _ => x

/-- Direct children of an element (Python `for c in elem`). -/
def XElem.children : XElem → List XElem
  | .mk _ _ _ cs => cs

mutual
/-- Python `elem.iter()`: the element itself followed by all descendants in document
order. -/
def XElem.iter : XElem → List XElem
  | .mk t a x cs => .mk t a x cs :: iterList cs

/-- Concatenated `iter()` streams of a list of elements. -/
def iterList : List XElem → List XElem
  | [] => []
  | e :: es => XElem.iter e ++ iterList es
end

/-- Lookup `elem.attrib[k]` without the exception: `some v` when the key exists. -/
def findAttr (attrib : List (String × String)) (k : String) : Option String :=
  (attrib.find? (fun kv => kv.1 == k)).map Prod.snd

/-- Lookup `elem.attrib[k]`: `KeyError` when the key is missing. -/
def getAttr (attrib : List (String × String)) (k : String) : Except String String :=
  match findAttr attrib k with
  | some v => Except.ok v
  | none => Except.error ("KeyError: " ++ k)

/-- Does the resolved tag equal `"place"`? -/
def isPlaceTag (e : XElem) : Bool := strip_ns e.tag == "place"

/-- Does the resolved tag equal `"transition"`? -/
def isTransTag (e : XElem) : Bool := strip_ns e.tag == "transition"

/-- Does the resolved tag equal `"arc"`? -/
def isArcTag (e : XElem) : Bool := strip_ns e.tag == "arc"

/-- Does the resolved tag equal `"name"`? -/
def isNameTag (e : XElem) : Bool := strip_ns e.tag == "name"

/-- Does the resolved tag equal `"text"`? -/
def isTextTag (e : XElem) : Bool := strip_ns e.tag == "text"

/-- Python `str.lower()` (ASCII range, as tag names are ASCII): lower-case
every character. -/
def pyLower (s : String) : String := String.mk (s.toList.map Char.toLower)

/-- Does the lower-cased resolved tag contain the substring `"initialmarking"`? -/
def isMarkingTag (e : XElem) : Bool :=
  containsSub "initialmarking".toList (pyLower (strip_ns e.tag)).toList

/-- The inner loop `for t in c.iter(): if strip_ns(t.tag) == "text": name =
t.text.strip()` — every matched text element overwrites the accumulator, a
`None` text raises `AttributeError`. -/
def textScanName (acc : Option String) : List XElem → Except String (Option String)
  | [] => Except.ok acc
  | t :: ts =>
    if isTextTag t then
      match t.text with
      | some s => textScanName (some (pyStrip s)) ts
      | none => Except.error "AttributeError: NoneType has no attribute strip"
    else textScanName acc ts

/-- The inner loop `for t in c.iter(): if strip_ns(t.tag) == "text": init =
int(t.text.strip())` — each matched text is parsed, a parse failure or `None`
text aborts. -/
def textScanInit (acc : Int) : List XElem → Except String Int
  | [] => Except.ok acc
  | t :: ts =>
    if isTextTag t then
      match t.text with
      | some s =>
        match pyInt (pyStrip s) with
        | Except.ok n => textScanInit n ts
        | Except.error e => Except.error e
      | none => Except.error "AttributeError: NoneType has no attribute strip"
    else textScanInit acc ts

/-- The loop `for c in elem:` of the place branch: a direct child tagged
`name` rescans the display name over the child's `iter()`, a direct child
whose tag contains `initialmarking` rescans the marking. -/
def placeScan (name : Option String) (init : Int) : List XElem → Except String (Option String × Int)
  | [] => Except.ok (name, init)
  | c :: cs =>
    match (if isNameTag c then textScanName name c.iter else Except.ok name) with
    | Except.error e => Except.error e
    | Except.ok name1 =>
      match (if isMarkingTag c then textScanInit init c.iter else Except.ok init) with
      | Except.error e => Except.error e
      | Except.ok init1 => placeScan name1 init1 cs

/-- One iteration of the main loop of `parse_pnml`: dispatch on the resolved
tag and update the net, or raise. -/
def processElem (net : PetriNet) (elem : XElem) : Except String PetriNet :=
  if isPlaceTag elem then
    match getAttr elem.attrib "id" with
    | Except.error e => Except.error e
    | Except.ok pid =>
      match placeScan none 0 elem.children with
      | Except.error e => Except.error e
      | Except.ok ni => net.add_place { id := pid, name := ni.1, initial_marking := ni.2 }
  else if isTransTag elem then
    match getAttr elem.attrib "id" with
    | Except.error e => Except.error e
    | Except.ok tid =>
      match textScanName none elem.iter with
      | Except.error e => Except.error e
      | Except.ok nm => net.add_transition { id := tid, name := nm }
  else if isArcTag elem then
    match getAttr elem.attrib "id" with
    | Except.error e => Except.error e
    | Except.ok i =>
      match getAttr elem.attrib "source" with
      | Except.error e => Except.error e
      | Except.ok s =>
        match getAttr elem.attrib "target" with
        | Except.error e => Except.error e
        | Except.ok t => Except.ok (net.add_arc { id := i, source := s, target := t })
  else Except.ok net

/-- The main loop `for elem in root.iter()` threaded over an element list. -/
def parseLoop (net : PetriNet) : List XElem → Except String PetriNet
  | [] => Except.ok net
  | e :: es =>
    match processElem net e with
    | Except.error msg => Except.error msg
    | Except.ok net1 => parseLoop net1 es

/-- Function `parse_pnml`: walk every element of the tree (the root included, as
`root.iter()` does) and build the net from the empty one. The file/XML reading
of the Python function is the external tree builder; the embedding starts from
the already-built root element. -/
def parse_pnml (root : XElem) : Except String PetriNet :=
  parseLoop PetriNet.empty root.iter

/-- The element that "wins" a last-match-wins scan for `text`-tagged elements:
fold over the stream, remembering the latest match. -/
def lastTextElem (acc : Option XElem) : List XElem → Option XElem
  | [] => acc
  | t :: ts => lastTextElem (if isTextTag t then some t else acc) ts

/-- The concatenated descendant streams (`c.iter()`) of the `name`-tagged
direct children of a place, in scan order. -/
def nameDescendants (children : List XElem) : List XElem :=
  (children.filter isNameTag).flatMap XElem.iter

/-- The concatenated descendant streams of the marking-tagged direct children
of a place, in scan order. -/
def markingDescendants (children : List XElem) : List XElem :=
  (children.filter isMarkingTag).flatMap XElem.iter

/-- The `id` attributes of the `place`-tagged elements of a stream, in order
(elements without the attribute contribute nothing). -/
def placeIdsOf (l : List XElem) : List String :=
  l.filterMap (fun e => if isPlaceTag e then findAttr e.attrib "id" else none)

/-- The `id` attributes of the `transition`-tagged elements of a stream. -/
def transIdsOf (l : List XElem) : List String :=
  l.filterMap (fun e => if isTransTag e then findAttr e.attrib "id" else none)

/-- A place, transition or arc element lacking one of its required
attributes — the fatal `KeyError` defects of the parser. -/
def missingAttrDefect (e : XElem) : Prop :=
  (isPlaceTag e = true ∧ findAttr e.attrib "id" = none) ∨
  (isTransTag e = true ∧ findAttr e.attrib "id" = none) ∨
  (isArcTag e = true ∧ (findAttr e.attrib "id" = none ∨
    findAttr e.attrib "source" = none ∨ findAttr e.attrib "target" = none))

/-- Scenario A document: one place `p1` with no marking child and no arcs. -/
def docA : XElem := XElem.mk "pnml" [] none [XElem.mk "place" [("id", "p1")] none []]

/-- The net Scenario A parses to. -/
def netA : PetriNet := ⟨[("p1", ⟨"p1", none, 0⟩)], [], []⟩

/-- Scenario C document: a single arc `a1` from `p1` to `t1`, nothing declared. -/
def docC : XElem :=
  XElem.mk "pnml" [] none
    [XElem.mk "arc" [("id", "a1"), ("source", "p1"), ("target", "t1")] none []]

/-- The arc of Scenario C. -/
def arcC : Arc := ⟨"a1", "p1", "t1"⟩

/-- The net Scenario C parses to. -/
def netC : PetriNet := ⟨[], [], [arcC]⟩

/-- Scenario D document: the place id `p1` declared twice. -/
def docD : XElem :=
  XElem.mk "pnml" [] none
    [XElem.mk "place" [("id", "p1")] none [], XElem.mk "place" [("id", "p1")] none []]

/-- A namespaced document whose place and transition share the id `x`. -/
def docShare : XElem :=
  XElem.mk "{http://www.pnml.org/version-2009/grammar/pnml}pnml" [] none
    [XElem.mk "{http://www.pnml.org/version-2009/grammar/pnml}place" [("id", "x")] none [],
     XElem.mk "{http://www.pnml.org/version-2009/grammar/pnml}transition" [("id", "x")] none []]

/-- Place element with no `id` attribute. -/
def elemNoId : XElem := XElem.mk "place" [("name", "p")] none []

/-- Document containing a place with no `id` attribute. -/
def docNoId : XElem := XElem.mk "pnml" [] none [elemNoId]

/-- Marking child with non-integer text. -/
def elemBadMark : XElem :=
  XElem.mk "initialMarking" [] none [XElem.mk "text" [] (some "abc") []]

/-- Place element carrying the non-integer marking. -/
def elemBadPlace : XElem := XElem.mk "place" [("id", "p1")] none [elemBadMark]

/-- Document whose only place has a non-integer initial marking. -/
def docNonInt : XElem := XElem.mk "pnml" [] none [elemBadPlace]

/-- A `text` element with no character data (`text = None`). -/
def elemNoneText : XElem := XElem.mk "text" [] none []

/-- Transition element containing the empty `text` element. -/
def elemTransNoneText : XElem := XElem.mk "transition" [("id", "t1")] none [elemNoneText]

/-- Document with a transition whose `text` descendant has `None` content. -/
def docTransNoneText : XElem := XElem.mk "pnml" [] none [elemTransNoneText]

/-- The depth-2 `text` element below the nested `name` wrapper. -/
def elemNestedText : XElem := XElem.mk "text" [] (some "X") []

/-- A `name` element that is not a direct child of its place. -/
def elemNestedName : XElem := XElem.mk "name" [] none [elemNestedText]

/-- Wrapper element interposed between the place and its `name`. -/
def elemWrapper : XElem := XElem.mk "wrapper" [] none [elemNestedName]

/-- Place whose `name`/`text` label sits at depth 2, not as a direct child. -/
def elemNestedPlace : XElem := XElem.mk "place" [("id", "p1")] none [elemWrapper]

/-- Document for the nested-name counterexample. -/
def docNestedName : XElem := XElem.mk "pnml" [] none [elemNestedPlace]

/-- A `text` element holding the integer literal `3`. -/
def elemThreeText : XElem := XElem.mk "text" [] (some "3") []

/-- A well-formed marking child with value 3. -/
def elemGoodMark : XElem := XElem.mk "initialMarking" [] none [elemThreeText]



/-- The error loop of `check_consistency` appends, per arc, exactly the
`arcErrors` block. -/
theorem errFold (net : PetriNet) : ∀ (l : List Arc) (init : List String),
    l.foldl (fun errs a =>
      let errs1 := if !containsKey net.places a.source && !containsKey net.transitions a.source
        then errs ++ [srcErrMsg a] else errs
      if !containsKey net.places a.target && !containsKey net.transitions a.target
        then errs1 ++ [tgtErrMsg a] else errs1) init = init ++ l.flatMap (arcErrors net) := by
  intro l
  induction l with
  | nil => intro init; simp
  | cons a as ih =>
    intro init
    simp only [List.foldl_cons, List.flatMap_cons]
    rw [ih, ← List.append_assoc]
    congr 1
    cases h1 : (!containsKey net.places a.source && !containsKey net.transitions a.source) <;>
      cases h2 : (!containsKey net.places a.target && !containsKey net.transitions a.target) <;>
      simp [arcErrors, h1, h2]

/-- The warning loop of `check_consistency` appends, per place, exactly the
`placeWarning` block. -/
theorem warnFold : ∀ (l : List (String × Place)) (init : List String),
    l.foldl (fun ws kp =>
      if !(kp.2.initial_marking == 0 || kp.2.initial_marking == 1)
        then ws ++ [markWarnMsg kp.2] else ws) init
    = init ++ l.flatMap (fun kv => placeWarning kv.2) := by
  intro l
  induction l with
  | nil => intro init; simp
  | cons kp ps ih =>
    intro init
    simp only [List.foldl_cons, List.flatMap_cons]
    rw [ih, ← List.append_assoc]
    congr 1
    cases h1 : (!(kp.2.initial_marking == 0 || kp.2.initial_marking == 1)) <;>
      simp [placeWarning, h1]

/-- The checker's error sequence is the concatenation of the per-arc blocks. -/
theorem check_errors_eq (net : PetriNet) :
    (net.check_consistency).1 = net.arcs.flatMap (arcErrors net) := by
  simpa [PetriNet.check_consistency] using errFold net net.arcs []

/-- The checker's warning sequence is the concatenation of the per-place blocks. -/
theorem check_warnings_eq (net : PetriNet) :
    (net.check_consistency).2 = net.places.flatMap (fun kv => placeWarning kv.2) := by
  simpa [PetriNet.check_consistency] using warnFold net.places []

/-- Claim C1: for every arc the validator emits one error naming the arc and its
source exactly when the source id is a key of neither mapping, and
independently one for the target; each arc contributes 0, 1 or 2 errors, and
the Scenario C document (single arc `a1` with undeclared `p1`, `t1`) yields
exactly the two errors naming `a1`. -/
theorem arc_endpoint_error_rule :
    (∀ net : PetriNet, (net.check_consistency).1 = net.arcs.flatMap (arcErrors net)) ∧
    (∀ (net : PetriNet) (a : Arc), (arcErrors net a).length =
      (if !containsKey net.places a.source && !containsKey net.transitions a.source then 1 else 0) +
      (if !containsKey net.places a.target && !containsKey net.transitions a.target then 1 else 0)) ∧
    (∀ (net : PetriNet) (a : Arc), a ∈ net.arcs →
      ((!containsKey net.places a.source && !containsKey net.transitions a.source) = true →
        srcErrMsg a ∈ (net.check_consistency).1) ∧
      ((!containsKey net.places a.target && !containsKey net.transitions a.target) = true →
        tgtErrMsg a ∈ (net.check_consistency).1)) ∧
    (parse_pnml docC = Except.ok netC ∧
      netC.check_consistency = (["Arc a1 has unknown source p1", "Arc a1 has unknown target t1"], [])) := by
  refine ⟨check_errors_eq, ?_, ?_, rfl, rfl⟩
  · intro net a
    cases h1 : (!containsKey net.places a.source && !containsKey net.transitions a.source) <;>
      cases h2 : (!containsKey net.places a.target && !containsKey net.transitions a.target) <;>
      simp [arcErrors, h1, h2]
  · intro net a ha
    constructor
    · intro h1
      rw [check_errors_eq]
      exact List.mem_flatMap.mpr ⟨a, ha, by simp [arcErrors, h1]⟩
    · intro h2
      rw [check_errors_eq]
      exact List.mem_flatMap.mpr ⟨a, ha, by simp [arcErrors, h2]⟩

/-- Witness for C1: on the Scenario C net both endpoint errors of arc `a1`
are in the checker's error sequence. -/
theorem arc_endpoint_error_rule_witness :
    srcErrMsg arcC ∈ (netC.check_consistency).1 ∧ tgtErrMsg arcC ∈ (netC.check_consistency).1 :=
  ⟨(arc_endpoint_error_rule.2.2.1 netC arcC (by decide)).1 rfl,
   (arc_endpoint_error_rule.2.2.1 netC arcC (by decide)).2 rfl⟩

/-- Claim C5: the validator warns about a place exactly when its initial marking is
neither 0 nor 1, with exactly one warning naming that place and its marking. -/
theorem non_binary_marking_warning_rule :
    (∀ net : PetriNet, (net.check_consistency).2 = net.places.flatMap (fun kv => placeWarning kv.2)) ∧
    (∀ p : Place, (placeWarning p = [] ↔ p.initial_marking = 0 ∨ p.initial_marking = 1)) ∧
    (∀ p : Place, placeWarning p = [] ∨ placeWarning p = [markWarnMsg p]) := by
  refine ⟨check_warnings_eq, ?_, ?_⟩
  · intro p
    constructor
    · intro h
      by_contra hc
      push_neg at hc
      have hb : (p.initial_marking == 0 || p.initial_marking == 1) = false := by
        simp [hc.1, hc.2]
      simp [placeWarning, hb] at h
    · intro h
      have hb : (p.initial_marking == 0 || p.initial_marking == 1) = true := by
        rcases h with h | h <;> simp [h]
      simp [placeWarning, hb]
  · intro p
    cases h : (!(p.initial_marking == 0 || p.initial_marking == 1)) <;>
      simp [placeWarning, h]

/-- Claim C8: the checker is a pure function of the net, so two successive runs on
the same unmodified net return identical ordered error and warning sequences
(the net itself is immutable in this embedding, matching the read-only loops). -/
theorem check_consistency_idempotent (net : PetriNet) :
    (let firstRun := net.check_consistency
     let secondRun := net.check_consistency
     firstRun.1 = secondRun.1 ∧ firstRun.2 = secondRun.2) :=
  ⟨rfl, rfl⟩

/-- Dropping until the first closing brace of a namespace-qualified tag leaves
exactly the brace and the local name. -/
theorem dropWhile_until_brace : ∀ (l : List Char), '}' ∉ l → ∀ r : List Char,
    (l ++ '}' :: r).dropWhile (fun c => c != '}') = '}' :: r := by
  intro l hl
  induction l with
  | nil => intro r; simp [List.dropWhile_cons]
  | cons c cs ih =>
    intro r
    have hc : c ≠ '}' := fun h => hl (h ▸ List.mem_cons_self c cs)
    have hcs : '}' ∉ cs := fun h => hl (List.mem_cons_of_mem c h)
    rw [List.cons_append, List.dropWhile_cons, if_pos (by simpa using hc)]
    exact ih hcs r

/-- Claim C9: the tag resolver maps `{namespace-uri}localName` to `localName` (a
namespace URI contains no `}`), and returns any tag without a namespace
qualifier unchanged; it is a total pure function. -/
theorem strip_ns_contract :
    (∀ ns loc : String, '}' ∉ ns.toList → strip_ns ("\x7b" ++ ns ++ "\x7d" ++ loc) = loc) ∧
    (∀ tag : String, '}' ∉ tag.toList → strip_ns tag = tag) := by
  constructor
  · intro ns loc hns
    have hdata : ("\x7b" ++ ns ++ "\x7d" ++ loc).toList = ('{' :: ns.toList) ++ '}' :: loc.toList := by
      simp [String.toList, String.data_append]
    have hmem : '}' ∈ ("\x7b" ++ ns ++ "\x7d" ++ loc).toList := by
      rw [hdata]; exact List.mem_append.mpr (Or.inr (List.mem_cons_self _ _))
    have hnb : '}' ∉ ('{' :: ns.toList) := by
      intro h
      rcases List.mem_cons.mp h with h | h
      · exact absurd h (by decide)
      · exact hns h
    rw [strip_ns, if_pos hmem, hdata, dropWhile_until_brace _ hnb]
    cases loc
    rfl
  · intro tag htag
    rw [strip_ns, if_neg htag]

/-- Witness for C9: a qualified PNML tag resolves to its local name, an
unqualified one passes through. -/
theorem strip_ns_contract_witness :
    strip_ns "{http://www.pnml.org/version-2009/grammar/pnml}place" = "place" ∧
    strip_ns "transition" = "transition" :=
  ⟨strip_ns_contract.1 "http://www.pnml.org/version-2009/grammar/pnml" "place" (by decide),
   strip_ns_contract.2 "transition" (by decide)⟩

/-- Claim C3: within one parse a duplicate place id or duplicate transition id is a
fatal error, while a place and a transition may share one id (separate
namespaces), as the full parse of `docShare` shows. -/
theorem duplicate_identifier_policy :
    ∀ (net : PetriNet) (p : Place) (t : Transition),
      (containsKey net.places p.id = true → net.add_place p = Except.error (dupPlaceMsg p)) ∧
      (containsKey net.places p.id = false →
        net.add_place p = Except.ok { net with places := net.places ++ [(p.id, p)] }) ∧
      (containsKey net.transitions t.id = true →
        net.add_transition t = Except.error (dupTransMsg t)) ∧
      (containsKey net.transitions t.id = false →
        net.add_transition t = Except.ok { net with transitions := net.transitions ++ [(t.id, t)] }) ∧
      (p.id = t.id → containsKey net.places p.id = false →
        containsKey net.transitions t.id = false →
        ∃ net1, net.add_place p = Except.ok net1 ∧
          net1.add_transition t =
            Except.ok { net1 with transitions := net1.transitions ++ [(t.id, t)] }) ∧
      parse_pnml docShare = Except.ok ⟨[("x", ⟨"x", none, 0⟩)], [("x", ⟨"x", none⟩)], []⟩ := by
  intro net p t
  refine ⟨?_, ?_, ?_, ?_, ?_, rfl⟩
  · intro h; simp [PetriNet.add_place, h]
  · intro h; simp [PetriNet.add_place, h]
  · intro h; simp [PetriNet.add_transition, h]
  · intro h; simp [PetriNet.add_transition, h]
  · intro _ hp ht
    refine ⟨{ net with places := net.places ++ [(p.id, p)] }, by simp [PetriNet.add_place, hp], ?_⟩
    simp [PetriNet.add_transition, ht]

/-- A last-match scan from any accumulator equals the scan from `none`, with
the accumulator as fallback. -/
theorem lastTextElem_none_or : ∀ (l : List XElem) (a : Option XElem),
    lastTextElem a l = (lastTextElem none l).or a := by
  intro l
  induction l with
  | nil => intro a; cases a <;> rfl
  | cons t ts ih =>
    intro a
    cases ht : isTextTag t
    · have h1 : lastTextElem a (t :: ts) = lastTextElem a ts := by simp [lastTextElem, ht]
      have h2 : lastTextElem none (t :: ts) = lastTextElem none ts := by simp [lastTextElem, ht]
      rw [h1, h2]
      exact ih a
    · have h1 : lastTextElem a (t :: ts) = lastTextElem (some t) ts := by simp [lastTextElem, ht]
      have h2 : lastTextElem none (t :: ts) = lastTextElem (some t) ts := by simp [lastTextElem, ht]
      rw [h1, h2, ih (some t)]
      cases lastTextElem none ts <;> rfl

/-- Last-match scans compose over list concatenation. -/
theorem lastTextElem_append : ∀ (l1 l2 : List XElem) (a : Option XElem),
    lastTextElem a (l1 ++ l2) = lastTextElem (lastTextElem a l1) l2 := by
  intro l1
  induction l1 with
  | nil => intro l2 a; rfl
  | cons t ts ih => intro l2 a; simp only [List.cons_append, lastTextElem]; exact ih l2 _

/-- An empty last-match scan of a cons means the head is not a `text` element
and the tail scan is empty too. -/
theorem lastTextElem_cons_none {t : XElem} {ts : List XElem}
    (h : lastTextElem none (t :: ts) = none) :
    isTextTag t = false ∧ lastTextElem none ts = none := by
  cases ht : isTextTag t
  · refine ⟨rfl, ?_⟩
    simpa [lastTextElem, ht] using h
  · exfalso
    rw [show lastTextElem none (t :: ts) = lastTextElem (some t) ts from by
        simp [lastTextElem, ht], lastTextElem_none_or] at h
    cases hx : lastTextElem none ts <;> simp [hx, Option.or] at h

/-- A stream with no matched `text` element leaves the name scan untouched. -/
theorem textScanName_no_text : ∀ (elems : List XElem), lastTextElem none elems = none →
    ∀ acc, textScanName acc elems = Except.ok acc := by
  intro elems
  induction elems with
  | nil => intro _ acc; rfl
  | cons t ts ih =>
    intro h acc
    obtain ⟨ht, hts⟩ := lastTextElem_cons_none h
    have hstep : textScanName acc (t :: ts) = textScanName acc ts := by
      simp [textScanName, ht]
    rw [hstep]
    exact ih hts acc

/-- A stream with no matched `text` element leaves the marking scan untouched. -/
theorem textScanInit_no_text : ∀ (elems : List XElem), lastTextElem none elems = none →
    ∀ acc, textScanInit acc elems = Except.ok acc := by
  intro elems
  induction elems with
  | nil => intro _ acc; rfl
  | cons t ts ih =>
    intro h acc
    obtain ⟨ht, hts⟩ := lastTextElem_cons_none h
    have hstep : textScanInit acc (t :: ts) = textScanInit acc ts := by
      simp [textScanInit, ht]
    rw [hstep]
    exact ih hts acc

/-- A successful name scan returns the accumulator when no `text` element is
matched, and otherwise the trimmed content of the last matched `text` element. -/
theorem textScanName_ok_last : ∀ (elems : List XElem) (acc r : Option String),
    textScanName acc elems = Except.ok r →
    (lastTextElem none elems = none → r = acc) ∧
    (∀ t, lastTextElem none elems = some t →
      ∃ s, t.text = some s ∧ r = some (pyStrip s)) := by
  intro elems
  induction elems with
  | nil =>
    intro acc r h
    refine ⟨fun _ => ?_, fun t ht => by simp [lastTextElem] at ht⟩
    simpa [textScanName] using h.symm
  | cons e es ih =>
    intro acc r h
    cases he : isTextTag e
    · rw [show textScanName acc (e :: es) = textScanName acc es from by
          simp [textScanName, he]] at h
      have hlast : lastTextElem none (e :: es) = lastTextElem none es := by
        simp [lastTextElem, he]
      rw [hlast]
      exact ih acc r h
    · cases hx : e.text with
      | none => simp [textScanName, he, hx] at h
      | some s =>
        rw [show textScanName acc (e :: es) = textScanName (some (pyStrip s)) es from by
            simp [textScanName, he, hx]] at h
        have ihs := ih (some (pyStrip s)) r h
        have hlast : lastTextElem none (e :: es) = (lastTextElem none es).or (some e) := by
          rw [show lastTextElem none (e :: es) = lastTextElem (some e) es from by
              simp [lastTextElem, he], lastTextElem_none_or]
        rw [hlast]
        cases hes : lastTextElem none es with
        | none =>
          refine ⟨fun hcontra => by simp [Option.or] at hcontra, fun t ht => ?_⟩
          have : t = e := by simpa [Option.or] using ht.symm
          subst this
          exact ⟨s, hx, ihs.1 hes⟩
        | some u =>
          refine ⟨fun hcontra => by simp [Option.or] at hcontra, fun t ht => ?_⟩
          have : u = t := by simpa [Option.or] using ht
          subst this
          exact ihs.2 u hes

/-- A successful marking scan returns the accumulator when no `text` element
is matched, and otherwise the parsed integer of the last matched `text`. -/
theorem textScanInit_ok_last : ∀ (elems : List XElem) (acc r : Int),
    textScanInit acc elems = Except.ok r →
    (lastTextElem none elems = none → r = acc) ∧
    (∀ t, lastTextElem none elems = some t →
      ∃ s, t.text = some s ∧ pyInt (pyStrip s) = Except.ok r) := by
  intro elems
  induction elems with
  | nil =>
    intro acc r h
    refine ⟨fun _ => ?_, fun t ht => by simp [lastTextElem] at ht⟩
    simpa [textScanInit] using h.symm
  | cons e es ih =>
    intro acc r h
    cases he : isTextTag e
    · rw [show textScanInit acc (e :: es) = textScanInit acc es from by
          simp [textScanInit, he]] at h
      have hlast : lastTextElem none (e :: es) = lastTextElem none es := by
        simp [lastTextElem, he]
      rw [hlast]
      exact ih acc r h
    · cases hx : e.text with
      | none => simp [textScanInit, he, hx] at h
      | some s =>
        cases hp : pyInt (pyStrip s) with
        | error em => simp [textScanInit, he, hx, hp] at h
        | ok k =>
          rw [show textScanInit acc (e :: es) = textScanInit k es from by
              simp [textScanInit, he, hx, hp]] at h
          have ihs := ih k r h
          have hlast : lastTextElem none (e :: es) = (lastTextElem none es).or (some e) := by
            rw [show lastTextElem none (e :: es) = lastTextElem (some e) es from by
                simp [lastTextElem, he], lastTextElem_none_or]
          rw [hlast]
          cases hes : lastTextElem none es with
          | none =>
            refine ⟨fun hcontra => by simp [Option.or] at hcontra, fun t ht => ?_⟩
            have : t = e := by simpa [Option.or] using ht.symm
            subst this
            exact ⟨s, hx, by rw [hp, ihs.1 hes]⟩
          | some u =>
            refine ⟨fun hcontra => by simp [Option.or] at hcontra, fun t ht => ?_⟩
            have : u = t := by simpa [Option.or] using ht
            subst this
            exact ihs.2 u hes

/-- A `name`-tagged child is never a marking child: `"name"` does not contain
the substring `"initialmarking"`. -/
theorem nameTag_not_marking (c : XElem) (h : isNameTag c = true) : isMarkingTag c = false := by
  have ht : strip_ns c.tag = "name" := by simpa [isNameTag] using h
  simp only [isMarkingTag, ht]
  decide

/-- Lemma: `Option.or` is `none` exactly when both arguments are. -/
theorem option_or_eq_none {α : Type} (B A : Option α) :
    B.or A = none ↔ B = none ∧ A = none := by
  cases B <;> cases A <;> simp [Option.or]

/-- Name descendants of a cons whose head is `name`-tagged. -/
theorem nameDescendants_cons_name {c : XElem} {cs : List XElem} (h : isNameTag c = true) :
    nameDescendants (c :: cs) = c.iter ++ nameDescendants cs := by
  simp [nameDescendants, List.filter_cons, h]

/-- Name descendants of a cons whose head is not `name`-tagged. -/
theorem nameDescendants_cons_other {c : XElem} {cs : List XElem} (h : isNameTag c = false) :
    nameDescendants (c :: cs) = nameDescendants cs := by
  simp [nameDescendants, List.filter_cons, h]

/-- Marking descendants of a cons whose head is marking-tagged. -/
theorem markingDescendants_cons_marking {c : XElem} {cs : List XElem} (h : isMarkingTag c = true) :
    markingDescendants (c :: cs) = c.iter ++ markingDescendants cs := by
  simp [markingDescendants, List.filter_cons, h]

/-- Marking descendants of a cons whose head is not marking-tagged. -/
theorem markingDescendants_cons_other {c : XElem} {cs : List XElem} (h : isMarkingTag c = false) :
    markingDescendants (c :: cs) = markingDescendants cs := by
  simp [markingDescendants, List.filter_cons, h]

/-- Combine the last-match characterizations of two sequential scans. -/
theorem lastText_combine {α : Type} (P : XElem → α → Prop) {A B : Option XElem} {v0 v1 v2 : α}
    (h1n : A = none → v1 = v0) (h1s : ∀ t, A = some t → P t v1)
    (h2n : B = none → v2 = v1) (h2s : ∀ t, B = some t → P t v2)
    (hP : ∀ t, P t v1 → v2 = v1 → P t v2) :
    (B.or A = none → v2 = v0) ∧ (∀ t, B.or A = some t → P t v2) := by
  constructor
  · intro h
    obtain ⟨hB, hA⟩ := (option_or_eq_none B A).mp h
    rw [h2n hB, h1n hA]
  · intro t ht
    cases hB : B with
    | some u =>
      have : u = t := by rw [hB] at ht; simpa [Option.or] using ht
      subst this
      exact h2s u hB
    | none =>
      rw [hB] at ht
      simp only [Option.or] at ht
      exact hP t (h1s t ht) (h2n hB)

/-- A successful place-child scan leaves the name (resp. marking) at its
start value when no `text` element is matched below a `name`-tagged (resp.
marking-tagged) direct child, and otherwise returns the trimmed (resp. parsed)
content of the last matched `text` element. -/
theorem placeScan_ok_last : ∀ (children : List XElem) (n0 : Option String) (i0 : Int)
    (n : Option String) (i : Int), placeScan n0 i0 children = Except.ok (n, i) →
    ((lastTextElem none (nameDescendants children) = none → n = n0) ∧
     (∀ t, lastTextElem none (nameDescendants children) = some t →
       ∃ s, t.text = some s ∧ n = some (pyStrip s))) ∧
    ((lastTextElem none (markingDescendants children) = none → i = i0) ∧
     (∀ t, lastTextElem none (markingDescendants children) = some t →
       ∃ s, t.text = some s ∧ pyInt (pyStrip s) = Except.ok i)) := by
  intro children
  induction children with
  | nil =>
    intro n0 i0 n i h
    have h' : n0 = n ∧ i0 = i := by simpa [placeScan] using h
    obtain ⟨h1, h2⟩ := h'
    subst h1; subst h2
    exact ⟨⟨fun _ => rfl, fun t ht => by simp [nameDescendants, lastTextElem] at ht⟩,
           ⟨fun _ => rfl, fun t ht => by simp [markingDescendants, lastTextElem] at ht⟩⟩
  | cons c cs ih =>
    intro n0 i0 n i h
    cases hn : isNameTag c
    · cases hm : isMarkingTag c
      · have hstep : placeScan n0 i0 (c :: cs) = placeScan n0 i0 cs := by
          simp [placeScan, hn, hm]
        rw [hstep] at h
        rw [nameDescendants_cons_other hn, markingDescendants_cons_other hm]
        exact ih n0 i0 n i h
      · cases hsc : textScanInit i0 c.iter with
        | error m =>
          have hbad : placeScan n0 i0 (c :: cs) = Except.error m := by
            simp [placeScan, hn, hm, hsc]
          rw [hbad] at h
          cases h
        | ok i1 =>
          have hstep : placeScan n0 i0 (c :: cs) = placeScan n0 i1 cs := by
            simp [placeScan, hn, hm, hsc]
          rw [hstep] at h
          have ihr := ih n0 i1 n i h
          have hsl := textScanInit_ok_last c.iter i0 i1 hsc
          rw [nameDescendants_cons_other hn]
          refine ⟨ihr.1, ?_⟩
          rw [markingDescendants_cons_marking hm, lastTextElem_append, lastTextElem_none_or]
          exact lastText_combine
            (fun t v => ∃ s, t.text = some s ∧ pyInt (pyStrip s) = Except.ok v)
            hsl.1 hsl.2 ihr.2.1 ihr.2.2
            (fun t hP hv => by
              obtain ⟨s, hs1, hs2⟩ := hP
              exact ⟨s, hs1, by rw [hs2, hv]⟩)
    · have hm : isMarkingTag c = false := nameTag_not_marking c hn
      cases hsc : textScanName n0 c.iter with
      | error m =>
        have hbad : placeScan n0 i0 (c :: cs) = Except.error m := by
          simp [placeScan, hn, hsc]
        rw [hbad] at h
        cases h
      | ok n1 =>
        have hstep : placeScan n0 i0 (c :: cs) = placeScan n1 i0 cs := by
          simp [placeScan, hn, hm, hsc]
        rw [hstep] at h
        have ihr := ih n1 i0 n i h
        have hsl := textScanName_ok_last c.iter n0 n1 hsc
        rw [markingDescendants_cons_other hm]
        refine ⟨?_, ihr.2⟩
        rw [nameDescendants_cons_name hn, lastTextElem_append, lastTextElem_none_or]
        exact lastText_combine
          (fun t v => ∃ s, t.text = some s ∧ v = some (pyStrip s))
          hsl.1 hsl.2 ihr.1.1 ihr.1.2
          (fun t hP hv => by
            obtain ⟨s, hs1, hs2⟩ := hP
            exact ⟨s, hs1, by rw [hv, hs2]⟩)

/-- With no marking child and no `text` element under any `name` child, the
place-child scan passes its accumulators through unchanged and raises nothing. -/
theorem placeScan_pass_through : ∀ (children : List XElem) (n0 : Option String) (i0 : Int),
    (∀ c ∈ children, isMarkingTag c = false) →
    lastTextElem none (nameDescendants children) = none →
    placeScan n0 i0 children = Except.ok (n0, i0) := by
  intro children
  induction children with
  | nil => intro n0 i0 _ _; rfl
  | cons c cs ih =>
    intro n0 i0 hm hlast
    have hmc : isMarkingTag c = false := hm c (List.mem_cons_self c cs)
    have hmcs : ∀ x ∈ cs, isMarkingTag x = false := fun x hx => hm x (List.mem_cons_of_mem c hx)
    cases hn : isNameTag c
    · have hstep : placeScan n0 i0 (c :: cs) = placeScan n0 i0 cs := by
        simp [placeScan, hn, hmc]
      rw [hstep]
      exact ih n0 i0 hmcs (by rwa [nameDescendants_cons_other hn] at hlast)
    · rw [nameDescendants_cons_name hn, lastTextElem_append, lastTextElem_none_or] at hlast
      obtain ⟨hB, hA⟩ := (option_or_eq_none _ _).mp hlast
      have hscan := textScanName_no_text c.iter hA n0
      have hstep : placeScan n0 i0 (c :: cs) = placeScan n0 i0 cs := by
        simp [placeScan, hn, hmc, hscan]
      rw [hstep]
      exact ih n0 i0 hmcs hB

/-- Claim C2 counterexample: in `docNestedName` the place `p1` has a `name` element
with a `text` child `"X"` among its descendants (at depth 2, below a wrapper),
yet the parsed place's display name is `none` — the parser looks for `name`
only among the place's direct children, not among all descendants as the
claim states. -/
theorem place_name_depth_counterexample :
    parse_pnml docNestedName = Except.ok ⟨[("p1", ⟨"p1", none, 0⟩)], [], []⟩ ∧
    elemNestedName ∈ elemNestedPlace.iter ∧ isNameTag elemNestedName = true ∧
    elemNestedText ∈ elemNestedName.iter ∧ isTextTag elemNestedText = true ∧
    elemNestedText.text = some "X" ∧ pyStrip "X" = "X" := by
  have h1 : elemNestedPlace.iter =
      [elemNestedPlace, elemWrapper, elemNestedName, elemNestedText] := rfl
  have h2 : elemNestedName.iter = [elemNestedName, elemNestedText] := rfl
  refine ⟨rfl, ?_, rfl, ?_, rfl, rfl, rfl⟩
  · rw [h1]; simp
  · rw [h2]; simp

/-- Claim C2 (amended): for each place element the parser searches its direct
children (not all descendants) for `name` elements; below such a child every
`text` descendant is matched, the last match wins, and its trimmed content
becomes the display name; when nothing is matched the name stays unset and no
error arises from the absence. -/
theorem place_name_direct_children_rule :
    (∀ (children : List XElem) (nm : Option String) (init : Int),
      placeScan none 0 children = Except.ok (nm, init) →
      (lastTextElem none (nameDescendants children) = none → nm = none) ∧
      (∀ t, lastTextElem none (nameDescendants children) = some t →
        ∃ s, t.text = some s ∧ nm = some (pyStrip s))) ∧
    (∀ children : List XElem, (∀ c ∈ children, isMarkingTag c = false) →
      lastTextElem none (nameDescendants children) = none →
      placeScan none 0 children = Except.ok (none, 0)) :=
  ⟨fun children nm init h => (placeScan_ok_last children none 0 nm init h).1,
   fun children hm hl => placeScan_pass_through children none 0 hm hl⟩

/-- Witness for C2 (amended): a direct `name` child with text `X` yields the
display name `X`, and a place with only a non-`name`, non-marking wrapper
child parses with the name unset and no error. -/
theorem place_name_direct_children_rule_witness :
    (∃ s, elemNestedText.text = some s ∧ (some "X" : Option String) = some (pyStrip s)) ∧
    placeScan none 0 [elemWrapper] = Except.ok (none, 0) :=
  ⟨(place_name_direct_children_rule.1 [elemNestedName] (some "X") 0 rfl).2 elemNestedText rfl,
   place_name_direct_children_rule.2 [elemWrapper]
     (fun c hc => by cases List.mem_singleton.mp hc; rfl) rfl⟩

/-- Claim C6: a place's initial marking comes from the direct children whose
lower-cased resolved tag contains `initialmarking`: the last matched `text`
below such a child is parsed as an integer into the marking (non-integer text
is fatal, as `docNonInt` shows), and with no matched marking text the marking
is 0 — in particular Scenario A parses to marking 0 with no errors and no
warnings. -/
theorem initial_marking_rule :
    (∀ (children : List XElem) (nm : Option String) (init : Int),
      placeScan none 0 children = Except.ok (nm, init) →
      (lastTextElem none (markingDescendants children) = none → init = 0) ∧
      (∀ t, lastTextElem none (markingDescendants children) = some t →
        ∃ s, t.text = some s ∧ pyInt (pyStrip s) = Except.ok init)) ∧
    (parse_pnml docA = Except.ok netA ∧ netA.check_consistency = ([], [])) ∧
    parse_pnml docNonInt = Except.error "invalid literal for int() with base 10: abc" :=
  ⟨fun children nm init h => (placeScan_ok_last children none 0 nm init h).2,
   ⟨rfl, rfl⟩, rfl⟩

/-- Witness for C6: a marking child with text `3` makes the scan return
marking 3, whose text parses back to 3. -/
theorem initial_marking_rule_witness :
    ∃ s, elemThreeText.text = some s ∧ pyInt (pyStrip s) = Except.ok 3 :=
  (initial_marking_rule.1 [elemGoodMark] none 3 rfl).2 elemThreeText rfl

/-- A `place`-tagged element is not `transition`-tagged. -/
theorem place_not_trans {e : XElem} (h : isPlaceTag e = true) : isTransTag e = false := by
  have ht : strip_ns e.tag = "place" := by simpa [isPlaceTag] using h
  simp [isTransTag, ht]

/-- A `place`-tagged element is not `arc`-tagged. -/
theorem place_not_arc {e : XElem} (h : isPlaceTag e = true) : isArcTag e = false := by
  have ht : strip_ns e.tag = "place" := by simpa [isPlaceTag] using h
  simp [isArcTag, ht]

/-- A `transition`-tagged element is not `place`-tagged. -/
theorem trans_not_place {e : XElem} (h : isTransTag e = true) : isPlaceTag e = false := by
  have ht : strip_ns e.tag = "transition" := by simpa [isTransTag] using h
  simp [isPlaceTag, ht]

/-- A `transition`-tagged element is not `arc`-tagged. -/
theorem trans_not_arc {e : XElem} (h : isTransTag e = true) : isArcTag e = false := by
  have ht : strip_ns e.tag = "transition" := by simpa [isTransTag] using h
  simp [isArcTag, ht]

/-- An `arc`-tagged element is not `place`-tagged. -/
theorem arc_not_place {e : XElem} (h : isArcTag e = true) : isPlaceTag e = false := by
  have ht : strip_ns e.tag = "arc" := by simpa [isArcTag] using h
  simp [isPlaceTag, ht]

/-- An `arc`-tagged element is not `transition`-tagged. -/
theorem arc_not_trans {e : XElem} (h : isArcTag e = true) : isTransTag e = false := by
  have ht : strip_ns e.tag = "arc" := by simpa [isArcTag] using h
  simp [isTransTag, ht]

/-- Attribute lookup succeeds exactly on present keys. -/
theorem getAttr_ok_iff {a : List (String × String)} {k v : String} :
    getAttr a k = Except.ok v ↔ findAttr a k = some v := by
  cases h : findAttr a k <;> simp [getAttr, h]

/-- Structure of a successful place step: the id attribute is present, the
child scan succeeded, the id was fresh, and exactly this place was appended. -/
theorem processElem_place_ok {net net' : PetriNet} {e : XElem}
    (hp : isPlaceTag e = true) (h : processElem net e = Except.ok net') :
    ∃ pid ni, findAttr e.attrib "id" = some pid ∧
      placeScan none 0 e.children = Except.ok ni ∧
      containsKey net.places pid = false ∧
      net' = { net with places :=
        net.places ++ [(pid, { id := pid, name := ni.1, initial_marking := ni.2 })] } := by
  simp only [processElem, hp, if_true] at h
  cases hid : getAttr e.attrib "id" with
  | error m => simp [hid] at h
  | ok pid =>
    rw [hid] at h
    cases hps : placeScan none 0 e.children with
    | error m => simp [hps] at h
    | ok ni =>
      rw [hps] at h
      cases hck : containsKey net.places pid with
      | true => simp [PetriNet.add_place, hck] at h
      | false =>
        refine ⟨pid, ni, getAttr_ok_iff.mp hid, rfl, hck, ?_⟩
        simp [PetriNet.add_place, hck] at h
        exact h.symm

/-- Structure of a successful transition step. -/
theorem processElem_trans_ok {net net' : PetriNet} {e : XElem}
    (ht : isTransTag e = true) (h : processElem net e = Except.ok net') :
    ∃ tid nm, findAttr e.attrib "id" = some tid ∧
      textScanName none e.iter = Except.ok nm ∧
      containsKey net.transitions tid = false ∧
      net' = { net with transitions := net.transitions ++ [(tid, { id := tid, name := nm })] } := by
  simp only [processElem, trans_not_place ht, ht, if_true, Bool.false_eq_true, if_false] at h
  cases hid : getAttr e.attrib "id" with
  | error m => simp [hid] at h
  | ok tid =>
    rw [hid] at h
    cases hsc : textScanName none e.iter with
    | error m => simp [hsc] at h
    | ok nm =>
      rw [hsc] at h
      cases hck : containsKey net.transitions tid with
      | true => simp [PetriNet.add_transition, hck] at h
      | false =>
        refine ⟨tid, nm, getAttr_ok_iff.mp hid, rfl, hck, ?_⟩
        simp [PetriNet.add_transition, hck] at h
        exact h.symm

/-- Structure of a successful arc step: the three attributes are present and
exactly this arc was appended. -/
theorem processElem_arc_ok {net net' : PetriNet} {e : XElem}
    (ha : isArcTag e = true) (h : processElem net e = Except.ok net') :
    ∃ i s t, findAttr e.attrib "id" = some i ∧ findAttr e.attrib "source" = some s ∧
      findAttr e.attrib "target" = some t ∧
      net' = { net with arcs := net.arcs ++ [{ id := i, source := s, target := t }] } := by
  simp only [processElem, arc_not_place ha, arc_not_trans ha, ha, if_true,
    Bool.false_eq_true, if_false] at h
  cases h1 : getAttr e.attrib "id" with
  | error m => simp [h1] at h
  | ok i =>
    rw [h1] at h
    cases h2 : getAttr e.attrib "source" with
    | error m => simp [h2] at h
    | ok s =>
      rw [h2] at h
      cases h3 : getAttr e.attrib "target" with
      | error m => simp [h3] at h
      | ok t =>
        rw [h3] at h
        refine ⟨i, s, t, getAttr_ok_iff.mp h1, getAttr_ok_iff.mp h2, getAttr_ok_iff.mp h3, ?_⟩
        simp [PetriNet.add_arc] at h
        exact h.symm

/-- An element with none of the three recognized tags leaves the net unchanged. -/
theorem processElem_other_ok {net net' : PetriNet} {e : XElem}
    (h1 : isPlaceTag e = false) (h2 : isTransTag e = false) (h3 : isArcTag e = false)
    (h : processElem net e = Except.ok net') : net' = net := by
  simp [processElem, h1, h2, h3] at h
  exact h.symm

/-- An absent key is not among the mapped-out first components. -/
theorem containsKey_false_not_mem {α : Type} {m : List (String × α)} {k : String}
    (h : containsKey m k = false) : k ∉ m.map Prod.fst := by
  intro hk
  rcases List.mem_map.mp hk with ⟨kv, hkv, hfst⟩
  have hany : m.any (fun kv => kv.1 == k) = true :=
    List.any_eq_true.mpr ⟨kv, hkv, by simp [hfst]⟩
  have h' : m.any (fun kv => kv.1 == k) = false := h
  rw [h'] at hany
  exact absurd hany (by decide)

/-- Appending a fresh element preserves `Nodup`. -/
theorem nodup_concat {α : Type} {l : List α} {a : α} (h : l.Nodup) (ha : a ∉ l) :
    (l ++ [a]).Nodup := by
  induction l with
  | nil => simp
  | cons b bs ih =>
    rw [List.cons_append, List.nodup_cons]
    rw [List.nodup_cons] at h
    refine ⟨?_, ih h.2 (fun hx => ha (List.mem_cons_of_mem b hx))⟩
    intro hb
    rcases List.mem_append.mp hb with hb | hb
    · exact h.1 hb
    · exact ha (List.mem_singleton.mp hb ▸ List.mem_cons_self b bs)

/-- Splitting the contributed place ids at a cons. -/
theorem placeIdsOf_cons (e : XElem) (es : List XElem) :
    placeIdsOf (e :: es) = placeIdsOf [e] ++ placeIdsOf es := by
  simp only [placeIdsOf, List.filterMap_cons]
  cases (if isPlaceTag e then findAttr e.attrib "id" else none) <;> simp

/-- Splitting the contributed transition ids at a cons. -/
theorem transIdsOf_cons (e : XElem) (es : List XElem) :
    transIdsOf (e :: es) = transIdsOf [e] ++ transIdsOf es := by
  simp only [transIdsOf, List.filterMap_cons]
  cases (if isTransTag e then findAttr e.attrib "id" else none) <;> simp

/-- One successful parser step grows each collection by the element's own
contribution: one entry for its own tag kind, nothing else. -/
theorem processElem_ok_effect (net : PetriNet) {net1 : PetriNet} {e : XElem}
    (h : processElem net e = Except.ok net1) :
    net1.places.length = net.places.length + ([e].filter isPlaceTag).length ∧
    net1.transitions.length = net.transitions.length + ([e].filter isTransTag).length ∧
    net1.arcs.length = net.arcs.length + ([e].filter isArcTag).length ∧
    net1.places.map Prod.fst = net.places.map Prod.fst ++ placeIdsOf [e] ∧
    net1.transitions.map Prod.fst = net.transitions.map Prod.fst ++ transIdsOf [e] ∧
    ((net.places.map Prod.fst).Nodup → (net1.places.map Prod.fst).Nodup) ∧
    ((net.transitions.map Prod.fst).Nodup → (net1.transitions.map Prod.fst).Nodup) := by
  cases hp : isPlaceTag e
  · cases ht : isTransTag e
    · cases ha : isArcTag e
      · have hnet := processElem_other_ok hp ht ha h
        subst hnet
        simp [placeIdsOf, transIdsOf, hp, ht, ha]
      · obtain ⟨i, s, t, _, _, _, hnet⟩ := processElem_arc_ok ha h
        subst hnet
        simp [placeIdsOf, transIdsOf, hp, ht, ha]
    · obtain ⟨tid, nm, hfind, _, hck, hnet⟩ := processElem_trans_ok ht h
      subst hnet
      refine ⟨by simp [hp], by simp [ht], by simp [trans_not_arc ht], ?_, ?_, ?_, ?_⟩
      · simp [placeIdsOf, hp]
      · simp [transIdsOf, ht, hfind]
      · intro hn; simpa using hn
      · intro hn
        simpa using nodup_concat hn (containsKey_false_not_mem hck)
  · obtain ⟨pid, ni, hfind, _, hck, hnet⟩ := processElem_place_ok hp h
    subst hnet
    refine ⟨by simp [hp], by simp [place_not_trans hp], by simp [place_not_arc hp], ?_, ?_, ?_, ?_⟩
    · simp [placeIdsOf, hp, hfind]
    · simp [transIdsOf, place_not_trans hp]
    · intro hn
      simpa using nodup_concat hn (containsKey_false_not_mem hck)
    · intro hn; simpa using hn

/-- Along a successful run of the main loop: each collection's size grows by
the number of elements of its tag kind, the key sequences extend by exactly
the contributed id attributes, and key uniqueness is preserved. -/
theorem parseLoop_ok_chain : ∀ (l : List XElem) (net net' : PetriNet),
    parseLoop net l = Except.ok net' →
    net'.places.length = net.places.length + (l.filter isPlaceTag).length ∧
    net'.transitions.length = net.transitions.length + (l.filter isTransTag).length ∧
    net'.arcs.length = net.arcs.length + (l.filter isArcTag).length ∧
    net'.places.map Prod.fst = net.places.map Prod.fst ++ placeIdsOf l ∧
    net'.transitions.map Prod.fst = net.transitions.map Prod.fst ++ transIdsOf l ∧
    ((net.places.map Prod.fst).Nodup → (net'.places.map Prod.fst).Nodup) ∧
    ((net.transitions.map Prod.fst).Nodup → (net'.transitions.map Prod.fst).Nodup) := by
  intro l
  induction l with
  | nil =>
    intro net net' h
    have hnet : net = net' := by simpa [parseLoop] using h
    subst hnet
    simp [placeIdsOf, transIdsOf]
  | cons e es ih =>
    intro net net' h
    cases hp : processElem net e with
    | error m => simp [parseLoop, hp] at h
    | ok net1 =>
      have hloop : parseLoop net1 es = Except.ok net' := by
        have hstep : parseLoop net (e :: es) = parseLoop net1 es := by
          simp [parseLoop, hp]
        rwa [hstep] at h
      have hef := processElem_ok_effect net hp
      have ihr := ih net1 net' hloop
      have hfp : ((e :: es).filter isPlaceTag).length
          = ([e].filter isPlaceTag).length + (es.filter isPlaceTag).length := by
        cases hpe : isPlaceTag e <;> simp [List.filter_cons, hpe, Nat.add_comm]
      have hft : ((e :: es).filter isTransTag).length
          = ([e].filter isTransTag).length + (es.filter isTransTag).length := by
        cases hpe : isTransTag e <;> simp [List.filter_cons, hpe, Nat.add_comm]
      have hfa : ((e :: es).filter isArcTag).length
          = ([e].filter isArcTag).length + (es.filter isArcTag).length := by
        cases hpe : isArcTag e <;> simp [List.filter_cons, hpe, Nat.add_comm]
      refine ⟨?_, ?_, ?_, ?_, ?_, ?_, ?_⟩
      · have h1 := ihr.1
        have h2 := hef.1
        rw [hfp]
        omega
      · have h1 := ihr.2.1
        have h2 := hef.2.1
        rw [hft]
        omega
      · have h1 := ihr.2.2.1
        have h2 := hef.2.2.1
        rw [hfa]
        omega
      · rw [placeIdsOf_cons, ihr.2.2.2.1, hef.2.2.2.1, List.append_assoc]
      · rw [transIdsOf_cons, ihr.2.2.2.2.1, hef.2.2.2.2.1, List.append_assoc]
      · exact fun hn => ihr.2.2.2.2.2.1 (hef.2.2.2.2.2.1 hn)
      · exact fun hn => ihr.2.2.2.2.2.2 (hef.2.2.2.2.2.2 hn)

/-- A matched `text` element with `None` content poisons the name scan from
any accumulator. -/
theorem textScanName_poison : ∀ (elems : List XElem) (t : XElem), t ∈ elems →
    isTextTag t = true → t.text = none →
    ∀ acc, ∃ msg, textScanName acc elems = Except.error msg := by
  intro elems
  induction elems with
  | nil => intro t ht; simp at ht
  | cons e es ih =>
    intro t htmem httag htnone acc
    rcases List.mem_cons.mp htmem with heq | hmem
    · subst heq
      exact ⟨"AttributeError: NoneType has no attribute strip",
        by simp [textScanName, httag, htnone]⟩
    · cases he : isTextTag e
      · have hstep : textScanName acc (e :: es) = textScanName acc es := by
          simp [textScanName, he]
        rw [hstep]
        exact ih t hmem httag htnone acc
      · cases hx : e.text with
        | none =>
          exact ⟨"AttributeError: NoneType has no attribute strip",
            by simp [textScanName, he, hx]⟩
        | some s =>
          have hstep : textScanName acc (e :: es) = textScanName (some (pyStrip s)) es := by
            simp [textScanName, he, hx]
          rw [hstep]
          exact ih t hmem httag htnone _

/-- A matched `text` element with `None` content or unparseable integer text
poisons the marking scan from any accumulator. -/
theorem textScanInit_poison : ∀ (elems : List XElem) (t : XElem), t ∈ elems →
    isTextTag t = true →
    (t.text = none ∨ ∃ s em, t.text = some s ∧ pyInt (pyStrip s) = Except.error em) →
    ∀ acc, ∃ msg, textScanInit acc elems = Except.error msg := by
  intro elems
  induction elems with
  | nil => intro t ht; simp at ht
  | cons e es ih =>
    intro t htmem httag hbad acc
    rcases List.mem_cons.mp htmem with heq | hmem
    · subst heq
      rcases hbad with hnone | ⟨s, em, hs, hpe⟩
      · exact ⟨"AttributeError: NoneType has no attribute strip",
          by simp [textScanInit, httag, hnone]⟩
      · exact ⟨em, by simp [textScanInit, httag, hs, hpe]⟩
    · cases he : isTextTag e
      · have hstep : textScanInit acc (e :: es) = textScanInit acc es := by
          simp [textScanInit, he]
        rw [hstep]
        exact ih t hmem httag hbad acc
      · cases hx : e.text with
        | none =>
          exact ⟨"AttributeError: NoneType has no attribute strip",
            by simp [textScanInit, he, hx]⟩
        | some s =>
          cases hpi : pyInt (pyStrip s) with
          | error em => exact ⟨em, by simp [textScanInit, he, hx, hpi]⟩
          | ok k =>
            have hstep : textScanInit acc (e :: es) = textScanInit k es := by
              simp [textScanInit, he, hx, hpi]
            rw [hstep]
            exact ih t hmem httag hbad _

/-- A `name`-tagged child whose descendant scan always fails poisons the
place-child scan from any state. -/
theorem placeScan_poison_name : ∀ (children : List XElem) (c : XElem), c ∈ children →
    isNameTag c = true → (∀ acc, ∃ m, textScanName acc c.iter = Except.error m) →
    ∀ (n0 : Option String) (i0 : Int), ∃ msg, placeScan n0 i0 children = Except.error msg := by
  intro children
  induction children with
  | nil => intro c hc; simp at hc
  | cons d ds ih =>
    intro c hcmem hname hscan n0 i0
    rcases List.mem_cons.mp hcmem with heq | hmem
    · subst heq
      obtain ⟨m, hm⟩ := hscan n0
      exact ⟨m, by simp [placeScan, hname, hm]⟩
    · cases hn : isNameTag d
      · cases hm : isMarkingTag d
        · have hstep : placeScan n0 i0 (d :: ds) = placeScan n0 i0 ds := by
            simp [placeScan, hn, hm]
          rw [hstep]
          exact ih c hmem hname hscan n0 i0
        · cases hsc : textScanInit i0 d.iter with
          | error m => exact ⟨m, by simp [placeScan, hn, hm, hsc]⟩
          | ok i1 =>
            have hstep : placeScan n0 i0 (d :: ds) = placeScan n0 i1 ds := by
              simp [placeScan, hn, hm, hsc]
            rw [hstep]
            exact ih c hmem hname hscan n0 i1
      · cases hsc : textScanName n0 d.iter with
        | error m => exact ⟨m, by simp [placeScan, hn, hsc]⟩
        | ok n1 =>
          have hstep : placeScan n0 i0 (d :: ds) = placeScan n1 i0 ds := by
            simp [placeScan, hn, nameTag_not_marking d hn, hsc]
          rw [hstep]
          exact ih c hmem hname hscan n1 i0

/-- A marking-tagged child whose descendant scan always fails poisons the
place-child scan from any state. -/
theorem placeScan_poison_marking : ∀ (children : List XElem) (c : XElem), c ∈ children →
    isMarkingTag c = true → (∀ acc, ∃ m, textScanInit acc c.iter = Except.error m) →
    ∀ (n0 : Option String) (i0 : Int), ∃ msg, placeScan n0 i0 children = Except.error msg := by
  intro children
  induction children with
  | nil => intro c hc; simp at hc
  | cons d ds ih =>
    intro c hcmem hmark hscan n0 i0
    rcases List.mem_cons.mp hcmem with heq | hmem
    · subst heq
      have hn : isNameTag c = false := by
        cases hcn : isNameTag c
        · rfl
        · rw [nameTag_not_marking c hcn] at hmark
          cases hmark
      obtain ⟨m, hm⟩ := hscan i0
      exact ⟨m, by simp [placeScan, hn, hmark, hm]⟩
    · cases hn : isNameTag d
      · cases hm : isMarkingTag d
        · have hstep : placeScan n0 i0 (d :: ds) = placeScan n0 i0 ds := by
            simp [placeScan, hn, hm]
          rw [hstep]
          exact ih c hmem hmark hscan n0 i0
        · cases hsc : textScanInit i0 d.iter with
          | error m => exact ⟨m, by simp [placeScan, hn, hm, hsc]⟩
          | ok i1 =>
            have hstep : placeScan n0 i0 (d :: ds) = placeScan n0 i1 ds := by
              simp [placeScan, hn, hm, hsc]
            rw [hstep]
            exact ih c hmem hmark hscan n0 i1
      · cases hsc : textScanName n0 d.iter with
        | error m => exact ⟨m, by simp [placeScan, hn, hsc]⟩
        | ok n1 =>
          have hstep : placeScan n0 i0 (d :: ds) = placeScan n1 i0 ds := by
            simp [placeScan, hn, nameTag_not_marking d hn, hsc]
          rw [hstep]
          exact ih c hmem hmark hscan n1 i0

/-- A failing place-child scan makes the place step fail for every net. -/
theorem processElem_place_error (net : PetriNet) {e : XElem}
    (hp : isPlaceTag e = true)
    (h : ∃ m, placeScan none 0 e.children = Except.error m) :
    ∃ msg, processElem net e = Except.error msg := by
  obtain ⟨m, hm⟩ := h
  cases hid : getAttr e.attrib "id" with
  | error k => exact ⟨k, by simp [processElem, hp, hid]⟩
  | ok pid => exact ⟨m, by simp [processElem, hp, hid, hm]⟩

/-- A failing transition name scan makes the transition step fail for every
net. -/
theorem processElem_trans_error (net : PetriNet) {e : XElem}
    (ht : isTransTag e = true)
    (h : ∃ m, textScanName none e.iter = Except.error m) :
    ∃ msg, processElem net e = Except.error msg := by
  obtain ⟨m, hm⟩ := h
  cases hid : getAttr e.attrib "id" with
  | error k => exact ⟨k, by simp [processElem, trans_not_place ht, ht, hid]⟩
  | ok tid => exact ⟨m, by simp [processElem, trans_not_place ht, ht, hid, hm]⟩

/-- A missing required attribute makes the step fail for every net. -/
theorem processElem_missing_attr (net : PetriNet) {e : XElem}
    (hd : missingAttrDefect e) : ∃ msg, processElem net e = Except.error msg := by
  rcases hd with ⟨hp, hf⟩ | ⟨ht, hf⟩ | ⟨ha, hf⟩
  · exact ⟨"KeyError: id", by simp [processElem, hp, getAttr, hf]⟩
  · exact ⟨"KeyError: id", by simp [processElem, trans_not_place ht, ht, getAttr, hf]⟩
  · have hpf := arc_not_place ha
    have htf := arc_not_trans ha
    cases h1 : findAttr e.attrib "id" with
    | none => exact ⟨"KeyError: id", by simp [processElem, hpf, htf, ha, getAttr, h1]⟩
    | some i =>
      cases h2 : findAttr e.attrib "source" with
      | none =>
        exact ⟨"KeyError: source", by simp [processElem, hpf, htf, ha, getAttr, h1, h2]⟩
      | some s =>
        cases h3 : findAttr e.attrib "target" with
        | none =>
          exact ⟨"KeyError: target",
            by simp [processElem, hpf, htf, ha, getAttr, h1, h2, h3]⟩
        | some t =>
          exfalso
          rcases hf with hf | hf | hf
          · rw [hf] at h1; cases h1
          · rw [hf] at h2; cases h2
          · rw [hf] at h3; cases h3

/-- An element that fails from every net state makes the whole loop fail. -/
theorem parseLoop_poison : ∀ (l : List XElem) (x : XElem), x ∈ l →
    (∀ net, ∃ msg, processElem net x = Except.error msg) →
    ∀ net0, ∃ msg, parseLoop net0 l = Except.error msg := by
  intro l
  induction l with
  | nil => intro x hx; simp at hx
  | cons e es ih =>
    intro x hxmem hx net0
    rcases List.mem_cons.mp hxmem with heq | hmem
    · subst heq
      obtain ⟨m, hm⟩ := hx net0
      exact ⟨m, by simp [parseLoop, hm]⟩
    · cases hp : processElem net0 e with
      | error m => exact ⟨m, by simp [parseLoop, hp]⟩
      | ok net1 =>
        obtain ⟨m, hm⟩ := ih x hmem hx net1
        exact ⟨m, by simp [parseLoop, hp, hm]⟩

/-- Claim C7: whenever the parse succeeds, the place mapping has exactly one entry
per `place`-tagged element of the tree (at any depth, root included), and
likewise for transitions and for the arc sequence. -/
theorem parse_counts_exact : ∀ (root : XElem) (net : PetriNet),
    parse_pnml root = Except.ok net →
    net.places.length = (root.iter.filter isPlaceTag).length ∧
    net.transitions.length = (root.iter.filter isTransTag).length ∧
    net.arcs.length = (root.iter.filter isArcTag).length := by
  intro root net h
  have hc := parseLoop_ok_chain root.iter PetriNet.empty net h
  exact ⟨by simpa [PetriNet.empty] using hc.1,
         by simpa [PetriNet.empty] using hc.2.1,
         by simpa [PetriNet.empty] using hc.2.2.1⟩

/-- Witness for C7: the Scenario C parse has exactly as many places,
transitions and arcs as the document has corresponding elements. -/
theorem parse_counts_exact_witness :
    netC.places.length = (docC.iter.filter isPlaceTag).length ∧
    netC.transitions.length = (docC.iter.filter isTransTag).length ∧
    netC.arcs.length = (docC.iter.filter isArcTag).length :=
  parse_counts_exact docC netC rfl

/-- Claim C4: every fatal construction defect aborts the whole parse, so no model
reaches validation: a place/transition/arc element missing a required
attribute, a non-integer initial-marking text, or duplicate place or
transition identifiers (a successful parse forces the contributed id lists to
be duplicate-free); Scenario D (place `p1` declared twice) fails with the
duplicate-id error before any validation can run. -/
theorem fatal_defects_abort_parse :
    (∀ (root e : XElem), e ∈ root.iter → missingAttrDefect e →
      ∃ msg, parse_pnml root = Except.error msg) ∧
    (∀ (root e c t : XElem) (s : String), e ∈ root.iter → isPlaceTag e = true →
      c ∈ e.children → isMarkingTag c = true → t ∈ c.iter → isTextTag t = true →
      t.text = some s → (∃ em, pyInt (pyStrip s) = Except.error em) →
      ∃ msg, parse_pnml root = Except.error msg) ∧
    (∀ (root : XElem) (net : PetriNet), parse_pnml root = Except.ok net →
      (placeIdsOf root.iter).Nodup ∧ (transIdsOf root.iter).Nodup) ∧
    parse_pnml docD = Except.error "Duplicate place id: p1" := by
  refine ⟨?_, ?_, ?_, rfl⟩
  · intro root e hmem hdef
    exact parseLoop_poison root.iter e hmem
      (fun net => processElem_missing_attr net hdef) PetriNet.empty
  · intro root e c t s hmem hp hc hmark ht httag htext hperr
    obtain ⟨em, hpe⟩ := hperr
    have hscan := textScanInit_poison c.iter t ht httag (Or.inr ⟨s, em, htext, hpe⟩)
    have hps := placeScan_poison_marking e.children c hc hmark hscan none 0
    exact parseLoop_poison root.iter e hmem
      (fun net => processElem_place_error net hp hps) PetriNet.empty
  · intro root net h
    have hc := parseLoop_ok_chain root.iter PetriNet.empty net h
    have hkp : net.places.map Prod.fst = placeIdsOf root.iter := by
      simpa [PetriNet.empty] using hc.2.2.2.1
    have hkt : net.transitions.map Prod.fst = transIdsOf root.iter := by
      simpa [PetriNet.empty] using hc.2.2.2.2.1
    have hnp : (net.places.map Prod.fst).Nodup :=
      hc.2.2.2.2.2.1 (by simp [PetriNet.empty])
    have hnt : (net.transitions.map Prod.fst).Nodup :=
      hc.2.2.2.2.2.2 (by simp [PetriNet.empty])
    exact ⟨hkp ▸ hnp, hkt ▸ hnt⟩

/-- Witness for C4: a place without `id` aborts the parse, and the Scenario A
parse succeeds with duplicate-free contributed ids. -/
theorem fatal_defects_abort_parse_witness :
    (∃ msg, parse_pnml docNoId = Except.error msg) ∧
    (placeIdsOf docA.iter).Nodup := by
  constructor
  · refine fatal_defects_abort_parse.1 docNoId elemNoId ?_ (Or.inl ⟨rfl, rfl⟩)
    have hiter : docNoId.iter = [XElem.mk "pnml" [] none [elemNoId], elemNoId] := rfl
    rw [hiter]
    simp
  · exact (fatal_defects_abort_parse.2.2.1 docA netA rfl).1

/-- Claim C10: a recognized `text` element carrying no character data is fatal: if
such an element sits below a `name`-tagged or marking-tagged direct child of a
place, or anywhere below a transition, the parse raises instead of treating
the name or marking as absent. -/
theorem none_text_aborts_parse : ∀ (root e : XElem), e ∈ root.iter →
    ((isPlaceTag e = true ∧ ∃ c, c ∈ e.children ∧
        (isNameTag c = true ∨ isMarkingTag c = true) ∧
        ∃ t, t ∈ c.iter ∧ isTextTag t = true ∧ t.text = none) ∨
     (isTransTag e = true ∧ ∃ t, t ∈ e.iter ∧ isTextTag t = true ∧ t.text = none)) →
    ∃ msg, parse_pnml root = Except.error msg := by
  intro root e hmem hcase
  rcases hcase with ⟨hp, c, hc, hcn, t, ht, httag, htnone⟩ | ⟨htr, t, ht, httag, htnone⟩
  · rcases hcn with hname | hmark
    · have hscan := textScanName_poison c.iter t ht httag htnone
      have hps := placeScan_poison_name e.children c hc hname hscan none 0
      exact parseLoop_poison root.iter e hmem
        (fun net => processElem_place_error net hp hps) PetriNet.empty
    · have hscan := textScanInit_poison c.iter t ht httag (Or.inl htnone)
      have hps := placeScan_poison_marking e.children c hc hmark hscan none 0
      exact parseLoop_poison root.iter e hmem
        (fun net => processElem_place_error net hp hps) PetriNet.empty
  · have hscan := textScanName_poison e.iter t ht httag htnone
    exact parseLoop_poison root.iter e hmem
      (fun net => processElem_trans_error net htr (hscan none)) PetriNet.empty

/-- Witness for C10: the transition of `docTransNoneText` holds a contentless
`text` element, and its parse aborts. -/
theorem none_text_aborts_parse_witness :
    ∃ msg, parse_pnml docTransNoneText = Except.error msg := by
  refine none_text_aborts_parse docTransNoneText elemTransNoneText ?_
    (Or.inr ⟨rfl, elemNoneText, ?_, rfl, rfl⟩)
  · have hiter : docTransNoneText.iter =
        [XElem.mk "pnml" [] none [elemTransNoneText], elemTransNoneText, elemNoneText] := rfl
    rw [hiter]
    simp
  · have hiter : elemTransNoneText.iter = [elemTransNoneText, elemNoneText] := rfl
    rw [hiter]
    simp

/-- Witness for C3: adding `p1` to the Scenario A net (which already holds
`p1`) fails, while a fresh net accepts a place and a transition both named
`x`. -/
theorem duplicate_identifier_policy_witness :
    netA.add_place ⟨"p1", none, 0⟩ = Except.error "Duplicate place id: p1" ∧
    (∃ net1, PetriNet.empty.add_place ⟨"x", none, 0⟩ = Except.ok net1 ∧
      net1.add_transition ⟨"x", none⟩ =
        Except.ok { net1 with transitions := net1.transitions ++ [("x", ⟨"x", none⟩)] }) :=
  ⟨(duplicate_identifier_policy netA ⟨"p1", none, 0⟩ ⟨"p1", none⟩).1 rfl,
   (duplicate_identifier_policy PetriNet.empty ⟨"x", none, 0⟩ ⟨"x", none⟩).2.2.2.2.1 rfl rfl rfl⟩

end PNML
